import Mathlib

/-!
Verification of the klio logger (package `logger`, file `logger.go`).

Go strings are modelled as lists of Unicode scalar values (`Str := List Char`);
a Go `[]string` field that may be `nil` is modelled as `Option (List Str)`
(`none` = nil slice), which matters because `json.Marshal` of a nil slice
yields `null` while an empty non-nil slice yields `[]`.  The output sink
(`io.Writer`) is modelled as an opaque identifier; `Print` is modelled by the
byte sequence it passes to the sink's single `Write` call.  `fmt.Sprint` /
`fmt.Sprintf` are host-library black boxes: a `Print`/`Printf` call is
modelled by the already-rendered content string.
-/

/-- A Go string: list of Unicode scalar values (valid UTF-8 assumed). -/
abbrev Str := List Char

/-- UTF-8 byte length of a modelled Go string. -/
def utf8Length (s : Str) : Nat :=
  match s with
  | [] => 0
  | c :: cs => c.utf8Size + utf8Length cs

/-- Lower-case hexadecimal digit, as produced by Go `encoding/json`. -/
def hexChar (n : Nat) : Char :=
  if n < 10 then Char.ofNat (48 + n) else Char.ofNat (87 + n)

/-- Value of a lower-case hexadecimal digit. -/
def hexVal (c : Char) : Nat :=
  if c.toNat ≤ 57 then c.toNat - 48 else c.toNat - 87

/-- Escaping of one character inside a JSON string, as Go `encoding/json`
does it with its default HTML escaping (`<`, `>`, `&` become `\u00XX`;
control characters below 0x20 are `\u00XX` except `\n`, `\r`, `\t`;
U+2028/U+2029 are ` `/` `). -/
def escapeChar (c : Char) : Str :=
  if c = '"' then ['\\', '"']
  else if c = '\\' then ['\\', '\\']
  else if c = '\n' then ['\\', 'n']
  else if c = '\r' then ['\\', 'r']
  else if c = '\t' then ['\\', 't']
  else if c = '<' then ['\\', 'u', '0', '0', '3', 'c']
  else if c = '>' then ['\\', 'u', '0', '0', '3', 'e']
  else if c = '&' then ['\\', 'u', '0', '0', '2', '6']
  else if c.toNat < 32 then
    ['\\', 'u', '0', '0', hexChar (c.toNat / 16), hexChar (c.toNat % 16)]
  else if c.toNat = 0x2028 then ['\\', 'u', '2', '0', '2', '8']
  else if c.toNat = 0x2029 then ['\\', 'u', '2', '0', '2', '9']
  else [c]

/-- JSON escaping of a whole string body. -/
def escapeStr : Str → Str
  | [] => []
  | c :: cs => escapeChar c ++ escapeStr cs

/-- `json.Marshal` of a Go string value: quoted, escaped. -/
def jsonMarshalString (s : Str) : Str :=
  '"' :: escapeStr s ++ ['"']

/-- Comma-separated element list of `json.Marshal` on a `[]string`. -/
def encArrAux : List Str → Str
  | [] => []
  | [t] => jsonMarshalString t
  | t :: ts => jsonMarshalString t ++ ',' :: encArrAux ts

/-- `json.Marshal` of a `[]string` value: `null` for a nil slice,
otherwise the bracketed comma-separated quoted elements. -/
def jsonMarshalTags : Option (List Str) → Str
  | none => "null".data
  | some ts => '[' :: encArrAux ts ++ [']']

/-- The ESC byte 0x1B (`\033` in the Go source). -/
def escByte : Char := '\x1b'

/-- The escape terminator `ESC \` ending each header segment. -/
def segTerm : Str := [escByte, '\\']

/-- The tags serialization actually interpolated into the header:
`updateLinePrefix` replaces a `"null"` marshal result (nil slice) by
`"[]"`. -/
def guardedTagsJson (tags : Option (List Str)) : Str :=
  if jsonMarshalTags tags = "null".data then "[]".data else jsonMarshalTags tags

/-- The header string built by `updateLinePrefix` for a (level, tags, mode)
triple: `fmt.Sprintf("\033_klio_log_level %s\033\\\033_klio_tags %s\033\\\033_klio_mode %s\033\\", level, tags, mode)`
where `level`/`mode` are `json.Marshal` results and `tags` is the
`json.Marshal` result with the `"null" → "[]"` guard applied.  The
`err != nil` fallbacks of the source are dead here: marshalling a string
or string slice is total in the model. -/
def encodeHeader (level : Str) (tags : Option (List Str)) (mode : Str) : Str :=
  escByte :: "_klio_log_level ".data ++ jsonMarshalString level ++ segTerm ++
    escByte :: "_klio_tags ".data ++ guardedTagsJson tags ++ segTerm ++
    escByte :: "_klio_mode ".data ++ jsonMarshalString mode ++ segTerm

/-- The `logger` struct of the source. `output` is an opaque sink id. -/
structure GoLogger where
  output : Nat
  tags : Option (List Str)
  level : Str
  linePrefix : Str
  mode : Str
deriving DecidableEq, Repr

/-- `(*logger).updateLinePrefix`. -/
def updateLinePrefix (l : GoLogger) : GoLogger :=
  { l with linePrefix := encodeHeader l.level l.tags l.mode }

/-- `New(output)`: default level `"info"`, empty (non-nil) tags, mode
`LineMode = "line"`; header computed before the value is returned. -/
def goNew (output : Nat) : GoLogger :=
  updateLinePrefix
    { output := output, tags := some [], level := "info".data,
      linePrefix := [], mode := "line".data }

/-- `NewMutable(output)`: the composite literal in the source sets `output`,
`tags` and `level` but omits `mode`, so `mode` is the Go zero value `""`. -/
def goNewMutable (output : Nat) : GoLogger :=
  updateLinePrefix
    { output := output, tags := some [], level := "info".data,
      linePrefix := [], mode := [] }

/-- `Tags()` accessor: returns a defensive copy; a nil slice copies to an
empty slice. -/
def goTags (l : GoLogger) : List Str :=
  match l.tags with
  | none => []
  | some ts => ts

/-- `Level()` accessor. -/
def goLevel (l : GoLogger) : Str := l.level

/-- `Mode()` accessor. -/
def goMode (l : GoLogger) : Str := l.mode

/-- `Output()` accessor. -/
def goOutput (l : GoLogger) : Nat := l.output

/-- `WithLevel`: copy of the receiver with the level replaced and header
recomputed. -/
def withLevel (l : GoLogger) (level : Str) : GoLogger :=
  updateLinePrefix { l with level := level }

/-- `WithMode`: copy with the mode replaced and header recomputed. -/
def withMode (l : GoLogger) (mode : Str) : GoLogger :=
  updateLinePrefix { l with mode := mode }

/-- `WithTags`: copy with the tags replaced (`none` when the variadic call
supplies no arguments — Go passes a nil slice) and header recomputed. -/
def withTags (l : GoLogger) (tags : Option (List Str)) : GoLogger :=
  updateLinePrefix { l with tags := tags }

/-- `WithOutput`: copy with the output replaced; no header recomputation. -/
def withOutput (l : GoLogger) (output : Nat) : GoLogger :=
  { l with output := output }

/-- `SetLevel` on a `mutableLogger` (value-level effect on the cell). -/
def setLevel (l : GoLogger) (level : Str) : GoLogger :=
  updateLinePrefix { l with level := level }

/-- `SetMode` (value-level effect on the cell). -/
def setMode (l : GoLogger) (mode : Str) : GoLogger :=
  updateLinePrefix { l with mode := mode }

/-- `SetTags` (value-level effect on the cell). -/
def setTags (l : GoLogger) (tags : Option (List Str)) : GoLogger :=
  updateLinePrefix { l with tags := tags }

/-- `SetOutput` (value-level effect on the cell): no header recomputation. -/
def setOutput (l : GoLogger) (output : Nat) : GoLogger :=
  { l with output := output }

/-- The fixed suffix `"\033_klio_reset\033\\\n"` appended by `Print`. -/
def resetSuffix : Str :=
  escByte :: "_klio_reset".data ++ [escByte, '\\', '\n']

/-- The one byte sequence a `Print` call passes to `output.Write`:
cached header, then the `fmt.Sprint`-rendered arguments, then the reset
sequence and newline.  `content` is the rendered argument string. -/
def goPrint (l : GoLogger) (content : Str) : Str :=
  l.linePrefix ++ content ++ resetSuffix

/-- `Printf` delegates to `Print` on the `fmt.Sprintf` result; `formatted`
is that result. -/
def goPrintf (l : GoLogger) (formatted : Str) : Str :=
  goPrint l formatted

/-- `bufio.MaxScanTokenSize`: the scanner's maximum token size. -/
def maxScanTokenSize : Nat := 65536

/-- The `ScanLines` byte test: not a newline. -/
def notNl (c : Char) : Bool := c ≠ '\n'

/-- `bufio.ScanLines`' `dropCR`: strips one trailing `\r` from a line. -/
def dropCR (line : Str) : Str :=
  if line.getLast? = some '\r' then line.dropLast else line

/-- The `bufio.Scanner` loop of `(*logger).Write` with the `ScanLines`
split function: tokens are maximal `\n`-free runs (each with one trailing
`\r` dropped), the final run is emitted even without a terminating
newline, and a run that cannot fit the scanner's buffer
(`≥ bufio.MaxScanTokenSize` bytes with no newline) stops the scan with
`ErrTooLong` after the earlier tokens were already delivered.  Returns the
delivered tokens and `some ()` when the scan ended in an error. -/
def scanLines (p : Str) : List Str × Option Unit :=
  if hp : p = [] then ([], none)
  else
    let run := p.takeWhile notNl
    if maxScanTokenSize ≤ utf8Length run then ([], some ())
    else
      let r := scanLines (p.drop (run.length + 1))
      (dropCR run :: r.1, r.2)
termination_by p.length
decreasing_by
  simp only [List.length_drop]
  have : 0 < p.length := List.length_pos.mpr hp
  omega

/-- `(*logger).Write`: feeds the buffer through the line scanner, calls
`Print` on every token, then returns `(len(p), nil)` on a clean scan and
`(0, err)` when the scanner reported an error.  The result is the list of
byte sequences written to the sink (one per `Print`) together with the
returned pair. -/
def goWrite (l : GoLogger) (p : Str) : List Str × (Nat × Option Unit) :=
  let s := scanLines p
  let written := s.1.map (fun line => goPrint l line)
  match s.2 with
  | some e => (written, (0, some e))
  | none => (written, (utf8Length p, none))

/-- A heap of logger cells: models Go pointers (`*logger`).  An address is
an index; `New`/`With*` allocate a fresh cell, setters overwrite one. -/
structure Heap where
  cells : List GoLogger
deriving Repr

/-- Pointer dereference. -/
def deref (h : Heap) (a : Nat) : Option GoLogger :=
  h.cells[a]?

/-- Allocate a fresh cell (what `n := *l; return &n` does). -/
def alloc (h : Heap) (l : GoLogger) : Nat × Heap :=
  (h.cells.length, ⟨h.cells ++ [l]⟩)

/-- `WithLevel` on a heap: read the receiver cell, allocate the derived
copy, leave every existing cell untouched. -/
def heapWithLevel (h : Heap) (a : Nat) (level : Str) : Option (Nat × Heap) :=
  (deref h a).map (fun l => alloc h (withLevel l level))

/-- `WithMode` on a heap. -/
def heapWithMode (h : Heap) (a : Nat) (mode : Str) : Option (Nat × Heap) :=
  (deref h a).map (fun l => alloc h (withMode l mode))

/-- `WithTags` on a heap. -/
def heapWithTags (h : Heap) (a : Nat) (tags : Option (List Str)) :
    Option (Nat × Heap) :=
  (deref h a).map (fun l => alloc h (withTags l tags))

/-- `WithOutput` on a heap. -/
def heapWithOutput (h : Heap) (a : Nat) (output : Nat) : Option (Nat × Heap) :=
  (deref h a).map (fun l => alloc h (withOutput l output))

/-- A level-named free function (`Spam`, `Debug`, …, `Fatal`):
`standardLogger.WithLevel(lvl).Print(v...)`.  Given the heap, the address
of the global standard logger and the rendered content, it returns the
heap after the transient derivation, the sink id written to and the byte
sequence written. -/
def heapFree (lvl : Str) (h : Heap) (std : Nat) (content : Str) :
    Option (Heap × Nat × Str) :=
  (heapWithLevel h std lvl).bind (fun p =>
    (deref p.2 p.1).map (fun derived =>
      (p.2, derived.output, goPrint derived content)))

/-- A formatted free function (`Spamf`, …, `Fatalf`):
`standardLogger.WithLevel(lvl).Printf(format, v...)`; `formatted` is the
`fmt.Sprintf` result. -/
def heapFreeF (lvl : Str) (h : Heap) (std : Nat) (formatted : Str) :
    Option (Heap × Nat × Str) :=
  (heapWithLevel h std lvl).bind (fun p =>
    (deref p.2 p.1).map (fun derived =>
      (p.2, derived.output, goPrintf derived formatted)))

/-- `ParseLevel`'s lookup table `levelsMap` (keys equal values). -/
def levelsMap : List (Str × Str) :=
  [("fatal".data, "fatal".data), ("error".data, "error".data),
   ("warn".data, "warn".data), ("info".data, "info".data),
   ("verbose".data, "verbose".data), ("debug".data, "debug".data),
   ("spam".data, "spam".data)]

/-- `unicode.ToLower` (the simple lowercase mapping `strings.ToLower`
applies rune-wise), modelled exactly on every code point whose lowercase
is an ASCII letter: `A`–`Z`, U+0130 `İ` (lowers to `i`) and U+212A KELVIN
SIGN (lowers to `k`) — these three classes are the only ones in the
Unicode simple-case tables with an ASCII image.  Every other code point
with a case mapping (Greek, Cyrillic, Latin-1, …) lowers to a non-ASCII
rune, so on such runes the identity taken here and Go's mapping both
yield a string outside the ASCII-only level-name set and `ParseLevel`'s
result is the same either way. -/
def goToLowerChar (c : Char) : Char :=
  if 'A' ≤ c ∧ c ≤ 'Z' then Char.ofNat (c.toNat + 32)
  else if c.toNat = 0x130 then 'i'
  else if c.toNat = 0x212A then 'k'
  else c

/-- `strings.ToLower`: the simple lowercase mapping applied rune-wise. -/
def goToLower (s : Str) : Str :=
  s.map goToLowerChar

/-- `ParseLevel(s)`: case-insensitive map lookup; on a miss the default
level `"info"` is returned with a false flag.  Total — no error path. -/
def parseLevel (s : Str) : Str × Bool :=
  match levelsMap.lookup (goToLower s) with
  | some l => (l, true)
  | none => ("info".data, false)

/-- The seven level names. -/
def levelNames : List Str :=
  ["fatal".data, "error".data, "warn".data, "info".data,
   "verbose".data, "debug".data, "spam".data]

/-- Spec §6 wire format, written from the spec's words: one log line is
`ESC _klio_log_level <json level> ESC \ ESC _klio_tags <json tags> ESC \
ESC _klio_mode <json mode> ESC \ <content> ESC _klio_reset ESC \ \n`,
with no separators between the three header segments.  Tags here are the
observable tag sequence (a list, as the spec has no nil-slice notion). -/
def wireFormatLine (level : Str) (tags : List Str) (mode : Str)
    (content : Str) : Str :=
  '\x1b' :: "_klio_log_level ".data ++ jsonMarshalString level ++
    ['\x1b', '\\'] ++
    '\x1b' :: "_klio_tags ".data ++ ('[' :: encArrAux tags ++ [']']) ++
    ['\x1b', '\\'] ++
    '\x1b' :: "_klio_mode ".data ++ jsonMarshalString mode ++
    ['\x1b', '\\'] ++
    content ++
    '\x1b' :: "_klio_reset".data ++ ['\x1b', '\\', '\n']

/-- Spec-side splitter: the parts of a string separated by `\n`,
including a trailing empty part when the string ends in `\n`. -/
def splitNl : Str → List Str
  | [] => [[]]
  | '\n' :: r => [] :: splitNl r
  | c :: r =>
    match splitNl r with
    | t :: ts => (c :: t) :: ts
    | [] => [[c]]

/-- Spec-side line decomposition of a raw buffer: split on newline
boundaries; a trailing partial line without a newline is still a line; a
buffer ending in `\n` contributes no extra empty line; each line loses
one trailing `\r` (CR-LF treated as a line break by the host scanner). -/
def linesSpec (p : Str) : List Str :=
  let parts := splitNl p
  (if parts.getLast? = some [] then parts.dropLast else parts).map dropCR

/-- `linePrefix` is the header of the current (level, tags, mode) triple. -/
def headerOK (l : GoLogger) : Prop :=
  l.linePrefix = encodeHeader l.level l.tags l.mode

instance (l : GoLogger) : Decidable (headerOK l) := by
  unfold headerOK; infer_instance

/-- Inverse of the two-character escapes. -/
def unescChar (e : Char) : Char :=
  if e = '"' then '"'
  else if e = '\\' then '\\'
  else if e = 'n' then '\n'
  else if e = 'r' then '\r'
  else if e = 't' then '\t'
  else e

/-- Reads an escaped JSON string body up to its closing quote; returns the
decoded body and the rest of the input.  Used only to prove the encoder
injective. -/
def parseStrAux : Str → Option (Str × Str)
  | [] => none
  | c :: r =>
    if c = '"' then some ([], r)
    else if c = '\\' then
      match r with
      | [] => none
      | e :: r1 =>
        if e = 'u' then
          match r1 with
          | a :: b :: c2 :: d :: r2 =>
            (parseStrAux r2).map (fun p =>
              (Char.ofNat ((((hexVal a * 16 + hexVal b) * 16 + hexVal c2) * 16)
                  + hexVal d) :: p.1, p.2))
          | _ => none
        else (parseStrAux r1).map (fun p => (unescChar e :: p.1, p.2))
    else (parseStrAux r).map (fun p => (c :: p.1, p.2))

theorem parseStrAux_quote (r : Str) : parseStrAux ('"' :: r) = some ([], r) := by
  unfold parseStrAux; simp

theorem parseStrAux_esc2 (e : Char) (r : Str) (he : e ≠ 'u') :
    parseStrAux ('\\' :: e :: r) =
      (parseStrAux r).map (fun p => (unescChar e :: p.1, p.2)) := by
  conv_lhs => rw [parseStrAux.eq_def]
  simp [he]

theorem parseStrAux_escU (a b c2 d : Char) (r : Str) :
    parseStrAux ('\\' :: 'u' :: a :: b :: c2 :: d :: r) =
      (parseStrAux r).map (fun p =>
        (Char.ofNat ((((hexVal a * 16 + hexVal b) * 16 + hexVal c2) * 16)
            + hexVal d) :: p.1, p.2)) := by
  conv_lhs => rw [parseStrAux.eq_def]
  simp

theorem parseStrAux_plain (c : Char) (r : Str) (h1 : c ≠ '"') (h2 : c ≠ '\\') :
    parseStrAux (c :: r) =
      (parseStrAux r).map (fun p => (c :: p.1, p.2)) := by
  conv_lhs => rw [parseStrAux.eq_def]
  simp [h1, h2]

theorem hexVal_hexChar (n : Nat) (h : n < 16) : hexVal (hexChar n) = n := by
  interval_cases n <;> decide

theorem parseStrAux_round (cs : Str) (rest : Str) :
    parseStrAux (escapeStr cs ++ '"' :: rest) = some (cs, rest) := by
  induction cs with
  | nil => exact parseStrAux_quote rest
  | cons c cs ih =>
    show parseStrAux (escapeChar c ++ escapeStr cs ++ '"' :: rest) = _
    by_cases h1 : c = '"'
    · subst h1
      rw [show escapeChar '"' = ['\\', '"'] from rfl]
      simp only [List.cons_append, List.singleton_append, List.nil_append]
      rw [parseStrAux_esc2 _ _ (by decide), ih]
      rfl
    · by_cases h2 : c = '\\'
      · subst h2
        rw [show escapeChar '\\' = ['\\', '\\'] from rfl]
        simp only [List.cons_append, List.singleton_append, List.nil_append]
        rw [parseStrAux_esc2 _ _ (by decide), ih]
        rfl
      · by_cases h3 : c = '\n'
        · subst h3
          rw [show escapeChar '\n' = ['\\', 'n'] from rfl]
          simp only [List.cons_append, List.singleton_append, List.nil_append]
          rw [parseStrAux_esc2 _ _ (by decide), ih]
          rfl
        · by_cases h4 : c = '\r'
          · subst h4
            rw [show escapeChar '\r' = ['\\', 'r'] from rfl]
            simp only [List.cons_append, List.singleton_append, List.nil_append]
            rw [parseStrAux_esc2 _ _ (by decide), ih]
            rfl
          · by_cases h5 : c = '\t'
            · subst h5
              rw [show escapeChar '\t' = ['\\', 't'] from rfl]
              simp only [List.cons_append, List.singleton_append, List.nil_append]
              rw [parseStrAux_esc2 _ _ (by decide), ih]
              rfl
            · by_cases h6 : c = '<'
              · subst h6
                rw [show escapeChar '<' = ['\\','u','0','0','3','c'] from rfl]
                simp only [List.cons_append, List.singleton_append, List.nil_append]
                rw [parseStrAux_escU, ih]
                have hx : Char.ofNat ((((hexVal '0' * 16 + hexVal '0') * 16
                    + hexVal '3') * 16) + hexVal 'c') = '<' := by decide
                simp [hx]
              · by_cases h7 : c = '>'
                · subst h7
                  rw [show escapeChar '>' = ['\\','u','0','0','3','e'] from rfl]
                  simp only [List.cons_append, List.singleton_append, List.nil_append]
                  rw [parseStrAux_escU, ih]
                  have hx : Char.ofNat ((((hexVal '0' * 16 + hexVal '0') * 16
                      + hexVal '3') * 16) + hexVal 'e') = '>' := by decide
                  simp [hx]
                · by_cases h8 : c = '&'
                  · subst h8
                    rw [show escapeChar '&' = ['\\','u','0','0','2','6'] from rfl]
                    simp only [List.cons_append, List.singleton_append, List.nil_append]
                    rw [parseStrAux_escU, ih]
                    have hx : Char.ofNat ((((hexVal '0' * 16 + hexVal '0') * 16
                        + hexVal '2') * 16) + hexVal '6') = '&' := by decide
                    simp [hx]
                  · by_cases h9 : c.toNat < 32
                    · have he : escapeChar c = ['\\', 'u', '0', '0',
                          hexChar (c.toNat / 16), hexChar (c.toNat % 16)] := by
                        simp [escapeChar, h1, h2, h3, h4, h5, h6, h7, h8, h9]
                      rw [he]
                      simp only [List.cons_append, List.singleton_append, List.nil_append]
                      rw [parseStrAux_escU, ih]
                      have d1 : hexVal (hexChar (c.toNat / 16)) = c.toNat / 16 :=
                        hexVal_hexChar _ (by omega)
                      have d2 : hexVal (hexChar (c.toNat % 16)) = c.toNat % 16 :=
                        hexVal_hexChar _ (by omega)
                      have h0 : hexVal '0' = 0 := by decide
                      have hX : (((hexVal '0' * 16 + hexVal '0') * 16
                            + hexVal (hexChar (c.toNat / 16))) * 16)
                          + hexVal (hexChar (c.toNat % 16)) = c.toNat := by
                        rw [d1, d2, h0]; omega
                      rw [hX, Char.ofNat_toNat]
                      rfl
                    · by_cases h10 : c.toNat = 0x2028
                      · have he : escapeChar c = ['\\','u','2','0','2','8'] := by
                          simp [escapeChar, h1, h2, h3, h4, h5, h6, h7, h8, h9, h10]
                        rw [he]
                        simp only [List.cons_append, List.singleton_append, List.nil_append]
                        rw [parseStrAux_escU, ih]
                        have hX : (((hexVal '2' * 16 + hexVal '0') * 16
                              + hexVal '2') * 16) + hexVal '8' = c.toNat := by
                          rw [h10]; decide
                        rw [hX, Char.ofNat_toNat]
                        rfl
                      · by_cases h11 : c.toNat = 0x2029
                        · have he : escapeChar c = ['\\','u','2','0','2','9'] := by
                            simp [escapeChar, h1, h2, h3, h4, h5, h6, h7, h8, h9,
                              h10, h11]
                          rw [he]
                          simp only [List.cons_append, List.singleton_append, List.nil_append]
                          rw [parseStrAux_escU, ih]
                          have hX : (((hexVal '2' * 16 + hexVal '0') * 16
                                + hexVal '2') * 16) + hexVal '9' = c.toNat := by
                            rw [h11]; decide
                          rw [hX, Char.ofNat_toNat]
                          rfl
                        · have he : escapeChar c = [c] := by
                            simp [escapeChar, h1, h2, h3, h4, h5, h6, h7, h8, h9,
                              h10, h11]
                          rw [he]
                          simp only [List.cons_append, List.singleton_append, List.nil_append]
                          rw [parseStrAux_plain _ _ h1 h2, ih]
                          rfl


theorem quote_append_inj {a b x y : Str}
    (h : jsonMarshalString a ++ x = jsonMarshalString b ++ y) :
    a = b ∧ x = y := by
  have ha : jsonMarshalString a ++ x = '"' :: (escapeStr a ++ '"' :: x) := by
    simp [jsonMarshalString]
  have hb : jsonMarshalString b ++ y = '"' :: (escapeStr b ++ '"' :: y) := by
    simp [jsonMarshalString]
  rw [ha, hb] at h
  have h2 : escapeStr a ++ '"' :: x = escapeStr b ++ '"' :: y :=
    (List.cons.injEq _ _ _ _ ▸ h).2
  have hr : some (a, x) = some (b, y) := by
    rw [← parseStrAux_round a x, ← parseStrAux_round b y, h2]
  have hp : (a, x) = (b, y) := Option.some.inj hr
  exact ⟨congrArg Prod.fst hp, congrArg Prod.snd hp⟩

theorem encArrAux_bracket_inj : ∀ (ts1 ts2 : List Str) (x y : Str),
    encArrAux ts1 ++ ']' :: x = encArrAux ts2 ++ ']' :: y →
    ts1 = ts2 ∧ x = y := by
  intro ts1
  induction ts1 with
  | nil =>
    intro ts2 x y h
    cases ts2 with
    | nil =>
      simp only [encArrAux, List.nil_append, List.cons.injEq, true_and] at h
      exact ⟨rfl, h⟩
    | cons b bs =>
      exfalso
      cases bs <;> simp [encArrAux, jsonMarshalString] at h
  | cons a as ih =>
    intro ts2 x y h
    cases ts2 with
    | nil =>
      exfalso
      cases as <;> simp [encArrAux, jsonMarshalString] at h
    | cons b bs =>
      cases as with
      | nil =>
        cases bs with
        | nil =>
          simp only [encArrAux] at h
          obtain ⟨hab, hxy⟩ := quote_append_inj h
          have : x = y := (List.cons.injEq _ _ _ _ ▸ hxy).2
          exact ⟨by rw [hab], this⟩
        | cons b2 bs2 =>
          exfalso
          simp only [encArrAux, List.append_assoc, List.cons_append] at h
          obtain ⟨_, hxy⟩ := quote_append_inj h
          exact absurd (List.cons.injEq _ _ _ _ ▸ hxy).1 (by decide)
      | cons a2 as2 =>
        cases bs with
        | nil =>
          exfalso
          simp only [encArrAux, List.append_assoc, List.cons_append] at h
          obtain ⟨_, hxy⟩ := quote_append_inj h
          exact absurd (List.cons.injEq _ _ _ _ ▸ hxy).1 (by decide)
        | cons b2 bs2 =>
          simp only [encArrAux, List.append_assoc, List.cons_append] at h
          obtain ⟨hab, htail⟩ := quote_append_inj h
          have htail2 : encArrAux (a2 :: as2) ++ ']' :: x
              = encArrAux (b2 :: bs2) ++ ']' :: y :=
            (List.cons.injEq _ _ _ _ ▸ htail).2
          obtain ⟨hts, hxy⟩ := ih (b2 :: bs2) x y htail2
          exact ⟨by rw [hab, hts], hxy⟩

theorem splitNl_ne_nil (cs : Str) : splitNl cs ≠ [] := by
  induction cs with
  | nil => simp [splitNl]
  | cons c cs ih =>
    by_cases hc : c = '\n'
    · subst hc; simp [splitNl]
    · rw [splitNl.eq_def]
      split
      · simp
      · simp
      · split
        · simp
        · simp

theorem splitNl_cons_not_nl (c : Char) (cs : Str) (hc : c ≠ '\n') :
    splitNl (c :: cs) =
      match splitNl cs with
      | t :: ts => (c :: t) :: ts
      | [] => [[c]] := by
  rw [splitNl.eq_def]
  split <;> simp_all

theorem splitNl_append (run rest : Str) (h : '\n' ∉ run) :
    splitNl (run ++ '\n' :: rest) = run :: splitNl rest := by
  induction run with
  | nil => simp [splitNl]
  | cons c run ih =>
    have hc : c ≠ '\n' := by intro he; exact h (by simp [he])
    have h' : '\n' ∉ run := by intro hm; exact h (by simp [hm])
    rw [List.cons_append, splitNl_cons_not_nl c _ hc, ih h']

theorem splitNl_no_nl (cs : Str) (h : '\n' ∉ cs) (hne : cs ≠ []) :
    splitNl cs = [cs] := by
  induction cs with
  | nil => simp at hne
  | cons c cs ih =>
    have hc : c ≠ '\n' := by intro he; exact h (by simp [he])
    have h' : '\n' ∉ cs := by intro hm; exact h (by simp [hm])
    rw [splitNl_cons_not_nl c _ hc]
    cases cs with
    | nil => simp [splitNl]
    | cons d ds => rw [ih h' (by simp)]

theorem scanLines_nil : scanLines [] = ([], none) := by
  unfold scanLines; simp

theorem scanLines_err (p : Str) (hp : p ≠ [])
    (hlen : maxScanTokenSize ≤ utf8Length (p.takeWhile notNl)) :
    scanLines p = ([], some ()) := by
  unfold scanLines; simp [hp, hlen]

theorem scanLines_step (p : Str) (hp : p ≠ [])
    (hlen : ¬ maxScanTokenSize ≤ utf8Length (p.takeWhile notNl)) :
    scanLines p =
      (dropCR (p.takeWhile notNl) ::
          (scanLines (p.drop ((p.takeWhile notNl).length + 1))).1,
        (scanLines (p.drop ((p.takeWhile notNl).length + 1))).2) := by
  conv_lhs => rw [scanLines]
  simp [hp, hlen]

/-- Every buffer either has no newline (the scan consumes it whole) or
splits as `takeWhile ++ '\n' :: rest` with `rest` what the scanner
recurses on. -/
theorem newline_decomp (p : Str) :
    ('\n' ∉ p ∧ p.takeWhile notNl = p) ∨
    (∃ d, p = p.takeWhile notNl ++ '\n' :: d ∧
      p.drop ((p.takeWhile notNl).length + 1) = d) := by
  induction p with
  | nil => left; simp
  | cons c cs ih =>
    by_cases hc : c = '\n'
    · right
      subst hc
      refine ⟨cs, ?_, ?_⟩ <;> simp [List.takeWhile_cons, notNl]
    · have htw : (c :: cs).takeWhile notNl
          = c :: cs.takeWhile notNl := by
        simp [List.takeWhile_cons, hc, notNl]
      rcases ih with ⟨hmem, heq⟩ | ⟨d, hdec, hdrop⟩
      · left
        constructor
        · intro hm
          rcases List.mem_cons.mp hm with h | h
          · exact hc h.symm
          · exact hmem h
        · rw [htw, heq]
      · right
        refine ⟨d, ?_, ?_⟩
        · rw [htw]
          conv_lhs => rw [hdec]
          simp
        · rw [htw]
          simpa using hdrop

theorem linesSpec_append (run rest : Str) (h : '\n' ∉ run) :
    linesSpec (run ++ '\n' :: rest) = dropCR run :: linesSpec rest := by
  unfold linesSpec
  rw [splitNl_append run rest h]
  obtain ⟨t, ts, hts⟩ := List.exists_cons_of_ne_nil (splitNl_ne_nil rest)
  rw [hts]
  by_cases hlast : (t :: ts).getLast? = some []
  · simp [hlast]
  · simp [hlast]

theorem linesSpec_no_nl (p : Str) (hnot : '\n' ∉ p) (hp : p ≠ []) :
    linesSpec p = [dropCR p] := by
  unfold linesSpec
  rw [splitNl_no_nl p hnot hp]
  simp [hp]

theorem scanLines_agree (p : Str) :
    (scanLines p).2 = none → (scanLines p).1 = linesSpec p := by
  induction p using scanLines.induct with
  | case1 =>
    intro _
    rw [scanLines_nil]
    simp [linesSpec, splitNl]
  | case2 p hp run hcond =>
    intro h
    have hrun : run = p.takeWhile notNl := rfl
    rw [hrun] at hcond
    rw [scanLines_err p hp hcond] at h
    simp at h
  | case3 p hp run hcond ih =>
    intro h
    have hrun : run = p.takeWhile notNl := rfl
    rw [hrun] at hcond ih
    rw [scanLines_step p hp hcond] at h ⊢
    simp only at h
    have hnr : '\n' ∉ p.takeWhile notNl := by
      intro hm
      have := List.mem_takeWhile_imp hm
      simp [notNl] at this
    rcases newline_decomp p with ⟨hnot, htw⟩ | ⟨d, hdec, hdrop⟩
    · have hdropnil : p.drop ((p.takeWhile notNl).length + 1) = [] := by
        apply List.drop_eq_nil_of_le
        rw [htw]
        omega
      rw [hdropnil, scanLines_nil]
      rw [htw, linesSpec_no_nl p hnot hp]
    · rw [hdrop] at h ⊢
      rw [hdrop] at ih
      rw [ih h]
      conv_rhs => rw [hdec]
      rw [linesSpec_append _ _ hnr]

/-- Header bytes before the tags JSON value. -/
def headerPre (level : Str) : Str :=
  escByte :: "_klio_log_level ".data ++ jsonMarshalString level ++ segTerm ++
    escByte :: "_klio_tags ".data

/-- Header bytes after the tags JSON value. -/
def headerPost (mode : Str) : Str :=
  segTerm ++ escByte :: "_klio_mode ".data ++ jsonMarshalString mode ++ segTerm

theorem bracket_ne_null (e : Str) : '[' :: e ≠ "null".data := by
  intro hc
  have : some '[' = some 'n' := congrArg List.head? hc
  simp at this

theorem encodeHeader_decomp (level : Str) (tags : Option (List Str))
    (mode : Str) :
    encodeHeader level tags mode =
      headerPre level ++ (guardedTagsJson tags ++ headerPost mode) := by
  rw [encodeHeader]
  simp [headerPre, headerPost]

theorem guardedTagsJson_some (ts : List Str) :
    guardedTagsJson (some ts) = '[' :: encArrAux ts ++ [']'] := by
  rw [guardedTagsJson,
    if_neg (show jsonMarshalTags (some ts) ≠ "null".data from
      bracket_ne_null (encArrAux ts ++ [']']))]
  rfl

theorem guardedTagsJson_none : guardedTagsJson none = "[]".data := by
  rw [guardedTagsJson]
  simp [jsonMarshalTags]

theorem encodeHeader_some (level : Str) (ts : List Str) (mode : Str) :
    encodeHeader level (some ts) mode =
      headerPre level ++ (('[' :: encArrAux ts ++ [']']) ++ headerPost mode) := by
  rw [encodeHeader_decomp, guardedTagsJson_some]

theorem encodeHeader_none (level : Str) (mode : Str) :
    encodeHeader level none mode =
      headerPre level ++ ("[]".data ++ headerPost mode) := by
  rw [encodeHeader_decomp, guardedTagsJson_none]

theorem encodeHeader_tags_inj {level mode : Str} {ts1 ts2 : List Str}
    (h : encodeHeader level (some ts1) mode = encodeHeader level (some ts2) mode) :
    ts1 = ts2 := by
  rw [encodeHeader_some, encodeHeader_some] at h
  have h1 : ('[' :: encArrAux ts1 ++ [']']) ++ headerPost mode
      = ('[' :: encArrAux ts2 ++ [']']) ++ headerPost mode :=
    (List.append_right_inj _).mp h
  have h2 : encArrAux ts1 ++ [']'] ++ headerPost mode
      = encArrAux ts2 ++ [']'] ++ headerPost mode := by
    have := (List.cons.injEq _ _ _ _ ▸ (by simpa using h1 : '[' :: (encArrAux ts1 ++ [']'] ++ headerPost mode) = '[' :: (encArrAux ts2 ++ [']'] ++ headerPost mode))).2
    simpa using this
  have h3 : encArrAux ts1 ++ ']' :: headerPost mode
      = encArrAux ts2 ++ ']' :: headerPost mode := by
    simpa [List.append_assoc] using h2
  exact (encArrAux_bracket_inj ts1 ts2 _ _ h3).1

theorem encArrAux_intercalate (ts : List Str) :
    encArrAux ts = List.intercalate [','] (ts.map jsonMarshalString) := by
  induction ts with
  | nil => simp [encArrAux, List.intercalate]
  | cons t ts ih =>
    cases ts with
    | nil => simp [encArrAux, List.intercalate, List.intersperse]
    | cons t2 ts2 =>
      simp only [encArrAux, List.map_cons] at ih ⊢
      rw [ih]
      simp [List.intercalate, List.intersperse]

theorem deref_alloc_old (h : Heap) (l x : GoLogger) (a : Nat)
    (hd : deref h a = some l) : deref (alloc h x).2 a = some l := by
  unfold deref alloc at *
  have ha : a < h.cells.length := by
    by_contra hge
    rw [List.getElem?_eq_none (by omega)] at hd
    exact Option.noConfusion hd
  rw [List.getElem?_append_left ha]
  exact hd

theorem alloc_fresh (h : Heap) (l x : GoLogger) (a : Nat)
    (hd : deref h a = some l) : (alloc h x).1 ≠ a := by
  unfold deref alloc at *
  have ha : a < h.cells.length := by
    by_contra hge
    rw [List.getElem?_eq_none (by omega)] at hd
    exact Option.noConfusion hd
  simp only
  omega

theorem deref_alloc_new (h : Heap) (x : GoLogger) :
    deref (alloc h x).2 (alloc h x).1 = some x := by
  unfold deref alloc
  simp

theorem lookup_levelsMap (t : Str) :
    levelsMap.lookup t = if t ∈ levelNames then some t else none := by
  by_cases h1 : t = "fatal".data
  · subst h1; simp [levelsMap, levelNames, List.lookup]
  · by_cases h2 : t = "error".data
    · subst h2; simp [levelsMap, levelNames, List.lookup]
    · by_cases h3 : t = "warn".data
      · subst h3; simp [levelsMap, levelNames, List.lookup]
      · by_cases h4 : t = "info".data
        · subst h4; simp [levelsMap, levelNames, List.lookup]
        · by_cases h5 : t = "verbose".data
          · subst h5; simp [levelsMap, levelNames, List.lookup]
          · by_cases h6 : t = "debug".data
            · subst h6; simp [levelsMap, levelNames, List.lookup]
            · by_cases h7 : t = "spam".data
              · subst h7; simp [levelsMap, levelNames, List.lookup]
              · have b1 : (t == "fatal".data) = false := beq_eq_false_iff_ne.mpr h1
                have b2 : (t == "error".data) = false := beq_eq_false_iff_ne.mpr h2
                have b3 : (t == "warn".data) = false := beq_eq_false_iff_ne.mpr h3
                have b4 : (t == "info".data) = false := beq_eq_false_iff_ne.mpr h4
                have b5 : (t == "verbose".data) = false := beq_eq_false_iff_ne.mpr h5
                have b6 : (t == "debug".data) = false := beq_eq_false_iff_ne.mpr h6
                have b7 : (t == "spam".data) = false := beq_eq_false_iff_ne.mpr h7
                rw [if_neg (by simp [levelNames, h1, h2, h3, h4, h5, h6, h7])]
                simp [levelsMap, List.lookup, b1, b2, b3, b4, b5, b6, b7]

/-- Sink id of `os.Stdout`. -/
def stdoutSink : Nat := 0

/-- Sink id of `os.Stderr`. -/
def stderrSink : Nat := 1

/-- The global `standardLogger = NewMutable(os.Stdout)` after package init
(`init()` does not touch it). -/
def standardLoggerInit : GoLogger := goNewMutable stdoutSink

/-- The global `errorLogger = NewMutable(os.Stderr)` after package init
(`init()` runs `errorLogger.SetLevel(ErrorLevel)`). -/
def errorLoggerInit : GoLogger := setLevel (goNewMutable stderrSink) "error".data

/-- `Spam(v...)`: `standardLogger.WithLevel(SpamLevel).Print(v...)`. -/
def goSpam : Heap → Nat → Str → Option (Heap × Nat × Str) := heapFree "spam".data

/-- `Debug(v...)`. -/
def goDebug : Heap → Nat → Str → Option (Heap × Nat × Str) := heapFree "debug".data

/-- `Verbose(v...)`. -/
def goVerbose : Heap → Nat → Str → Option (Heap × Nat × Str) :=
  heapFree "verbose".data

/-- `Info(v...)`. -/
def goInfo : Heap → Nat → Str → Option (Heap × Nat × Str) := heapFree "info".data

/-- `Warn(v...)`. -/
def goWarn : Heap → Nat → Str → Option (Heap × Nat × Str) := heapFree "warn".data

/-- `Error(v...)`. -/
def goError : Heap → Nat → Str → Option (Heap × Nat × Str) := heapFree "error".data

/-- `Fatal(v...)`. -/
def goFatal : Heap → Nat → Str → Option (Heap × Nat × Str) := heapFree "fatal".data

theorem heapFree_spec (lvl : Str) (h : Heap) (a : Nat) (std : GoLogger)
    (c : Str) (hd : deref h a = some std) :
    heapFree lvl h a c
      = some ((alloc h (withLevel std lvl)).2, std.output,
          encodeHeader lvl std.tags std.mode ++ c ++ resetSuffix) ∧
    deref (alloc h (withLevel std lvl)).2 a = some std ∧
    heapFreeF lvl h a c = heapFree lvl h a c := by
  refine ⟨?_, deref_alloc_old h std _ a hd, ?_⟩
  · rw [heapFree, heapWithLevel, hd]
    simp [deref_alloc_new, goPrint, withLevel, updateLinePrefix]
  · rw [heapFree, heapFreeF]
    rfl

theorem goPrint_wire (l : GoLogger) (c : Str) (h : headerOK l) :
    goPrint l c = wireFormatLine l.level (goTags l) l.mode c := by
  rw [goPrint, show l.linePrefix = encodeHeader l.level l.tags l.mode from h]
  cases htags : l.tags with
  | none =>
    rw [encodeHeader_none, show goTags l = [] from by simp [goTags, htags]]
    simp [wireFormatLine, headerPre, headerPost, segTerm, escByte, resetSuffix,
      encArrAux, List.append_assoc]
  | some ts =>
    rw [encodeHeader_some, show goTags l = ts from by simp [goTags, htags]]
    simp [wireFormatLine, headerPre, headerPost, segTerm, escByte, resetSuffix,
      List.append_assoc]

/-- C1: one `Print` call on a logger with a consistent cached header writes
to its sink exactly one contiguous byte sequence: ESC `_klio_log_level `
and the minified JSON level, ESC `\`, ESC `_klio_tags ` and the JSON tags,
ESC `\`, ESC `_klio_mode ` and the JSON mode, ESC `\`, the stringified
arguments, ESC `_klio_reset`, ESC `\` and one newline, with no separators
between the header segments; and `New(sink).WithLevel("warn").WithTags("build","x").Print("done")`
writes exactly the scenario bytes of spec §8. -/
theorem claim1_print_wire_format (l : GoLogger) (content : Str)
    (h : headerOK l) :
    goPrint l content = wireFormatLine l.level (goTags l) l.mode content ∧
    goPrint (withTags (withLevel (goNew 0) "warn".data)
        (some ["build".data, "x".data])) "done".data
      = ("\x1b_klio_log_level \"warn\"\x1b\\\x1b_klio_tags [\"build\",\"x\"]\x1b\\\x1b_klio_mode \"line\"\x1b\\done\x1b_klio_reset\x1b\\\n").data :=
  ⟨goPrint_wire l content h, by decide⟩

theorem claim1_witness :
    headerOK (goNew 0) ∧
    goPrint (goNew 0) "hi".data
      = wireFormatLine (goNew 0).level (goTags (goNew 0)) (goNew 0).mode
          "hi".data :=
  ⟨by decide, (claim1_print_wire_format (goNew 0) "hi".data (by decide)).1⟩

/-- C2: `ParseLevel` lower-cases its argument with the Unicode simple
case mapping; when the result is one of the seven level names it returns
that canonical level with a true flag, and on any other string it returns
the default level `"info"` with a false flag; it is a total function (no
error path).  The Unicode cross-block lowerings are honoured:
`ParseLevel("İNFO")` (with U+0130) lowercases to `"info"` and succeeds,
just as in Go; unrecognized inputs miss and fall back to the default. -/
theorem claim2_parseLevel_total (s : Str) :
    (parseLevel s =
      if goToLower s ∈ levelNames then (goToLower s, true)
      else ("info".data, false)) ∧
    parseLevel "İNFO".data = ("info".data, true) ∧
    parseLevel "WaRn".data = ("warn".data, true) ∧
    parseLevel "bogus!".data = ("info".data, false) := by
  refine ⟨?_, by decide, by decide, by decide⟩
  rw [parseLevel, lookup_levelsMap]
  by_cases hm : goToLower s ∈ levelNames
  · simp [hm]
  · simp [hm]

/-- C3: each `With*` derivation allocates a fresh cell (a distinct
instance) and the receiver's cell — level, tags, mode, output and cached
header — is bit-for-bit unchanged afterwards. -/
theorem claim3_with_derivations_immutable (h : Heap) (a : Nat) (l : GoLogger)
    (v m : Str) (ts : Option (List Str)) (o : Nat)
    (hd : deref h a = some l) :
    (∃ p, heapWithLevel h a v = some p ∧ p.1 ≠ a ∧ deref p.2 a = some l) ∧
    (∃ p, heapWithMode h a m = some p ∧ p.1 ≠ a ∧ deref p.2 a = some l) ∧
    (∃ p, heapWithTags h a ts = some p ∧ p.1 ≠ a ∧ deref p.2 a = some l) ∧
    (∃ p, heapWithOutput h a o = some p ∧ p.1 ≠ a ∧ deref p.2 a = some l) := by
  refine ⟨⟨alloc h (withLevel l v), ?_, alloc_fresh h l _ a hd,
      deref_alloc_old h l _ a hd⟩,
    ⟨alloc h (withMode l m), ?_, alloc_fresh h l _ a hd,
      deref_alloc_old h l _ a hd⟩,
    ⟨alloc h (withTags l ts), ?_, alloc_fresh h l _ a hd,
      deref_alloc_old h l _ a hd⟩,
    ⟨alloc h (withOutput l o), ?_, alloc_fresh h l _ a hd,
      deref_alloc_old h l _ a hd⟩⟩
  · rw [heapWithLevel, hd]; rfl
  · rw [heapWithMode, hd]; rfl
  · rw [heapWithTags, hd]; rfl
  · rw [heapWithOutput, hd]; rfl

theorem claim3_witness :
    deref ⟨[goNew 5]⟩ 0 = some (goNew 5) ∧
    (∃ p, heapWithLevel ⟨[goNew 5]⟩ 0 "warn".data = some p ∧ p.1 ≠ 0 ∧
      deref p.2 0 = some (goNew 5)) :=
  ⟨by decide,
    (claim3_with_derivations_immutable ⟨[goNew 5]⟩ 0 (goNew 5) "warn".data
      "raw".data none 7 (by decide)).1⟩

/-- C4: the cached header equals the header encoding of the current
(level, tags, mode) triple after every constructor, derivation and setter;
`WithOutput`/`SetOutput` leave the header bytes unchanged and preserve the
invariant; and two loggers with equal triples have byte-identical headers
regardless of their sinks. -/
theorem claim4_header_never_stale (o o2 : Nat) (l l1 l2 : GoLogger)
    (v m : Str) (ts : Option (List Str)) :
    headerOK (goNew o) ∧ headerOK (goNewMutable o) ∧
    headerOK (withLevel l v) ∧ headerOK (withMode l m) ∧
    headerOK (withTags l ts) ∧ headerOK (setLevel l v) ∧
    headerOK (setMode l m) ∧ headerOK (setTags l ts) ∧
    (withOutput l o2).linePrefix = l.linePrefix ∧
    (setOutput l o2).linePrefix = l.linePrefix ∧
    (headerOK l → headerOK (withOutput l o2)) ∧
    (headerOK l → headerOK (setOutput l o2)) ∧
    (headerOK l1 → headerOK l2 → l1.level = l2.level → l1.tags = l2.tags →
      l1.mode = l2.mode → l1.linePrefix = l2.linePrefix) := by
  refine ⟨rfl, rfl, rfl, rfl, rfl, rfl, rfl, rfl, rfl, rfl,
    fun hl => hl, fun hl => hl, fun h1 h2 e1 e2 e3 => ?_⟩
  rw [show l1.linePrefix = encodeHeader l1.level l1.tags l1.mode from h1,
    show l2.linePrefix = encodeHeader l2.level l2.tags l2.mode from h2,
    e1, e2, e3]

theorem scanLines_ex1 :
    scanLines ['l','i','n','e','1','\n','l','i','n','e','2','\n']
      = ([['l','i','n','e','1'], ['l','i','n','e','2']], none) := by
  show scanLines "line1\nline2\n".data = (["line1".data, "line2".data], none)
  rw [scanLines_step _ (by decide) (by decide)]
  rw [show ("line1\nline2\n".data).takeWhile notNl = "line1".data by decide]
  rw [show ("line1\nline2\n".data).drop ("line1".data.length + 1)
      = "line2\n".data by decide]
  rw [scanLines_step _ (by decide) (by decide)]
  rw [show ("line2\n".data).takeWhile notNl = "line2".data by decide]
  rw [show ("line2\n".data).drop ("line2".data.length + 1) = ([] : Str)
      by decide]
  rw [scanLines_nil]
  decide

theorem scanLines_ex2 :
    scanLines ['l','i','n','e','1','\n','l','i','n','e','2']
      = ([['l','i','n','e','1'], ['l','i','n','e','2']], none) := by
  show scanLines "line1\nline2".data = (["line1".data, "line2".data], none)
  rw [scanLines_step _ (by decide) (by decide)]
  rw [show ("line1\nline2".data).takeWhile notNl = "line1".data by decide]
  rw [show ("line1\nline2".data).drop ("line1".data.length + 1)
      = "line2".data by decide]
  rw [scanLines_step _ (by decide) (by decide)]
  rw [show ("line2".data).takeWhile notNl = "line2".data by decide]
  rw [show ("line2".data).drop ("line2".data.length + 1) = ([] : Str)
      by decide]
  rw [scanLines_nil]
  decide

/-- C5: the raw-write operation splits the buffer on newline boundaries and
emits one fully decorated `Print` line per resulting line, flushing a
trailing partial line; on a clean scan it returns `(len p, nil)`, and when
the scanner reports an error it returns `(0, err)`; in particular both
`"line1\nline2\n"` and `"line1\nline2"` yield exactly the two decorated
lines `line1` and `line2`. -/
theorem claim5_raw_write (l : GoLogger) (p : Str) :
    ((scanLines p).2 = none →
      (goWrite l p).1 = (linesSpec p).map (fun line => goPrint l line) ∧
      (goWrite l p).2 = (utf8Length p, none)) ∧
    ((scanLines p).2 ≠ none → (goWrite l p).2 = (0, (scanLines p).2)) ∧
    (goWrite l "line1\nline2\n".data).1
      = [goPrint l "line1".data, goPrint l "line2".data] ∧
    (goWrite l "line1\nline2".data).1
      = [goPrint l "line1".data, goPrint l "line2".data] := by
  refine ⟨?_, ?_, ?_, ?_⟩
  · intro h
    constructor
    · simp [goWrite, h, scanLines_agree p h]
    · simp [goWrite, h]
  · intro h
    cases he : (scanLines p).2 with
    | none => exact absurd he h
    | some e => simp [goWrite, he]
  · simp [goWrite, scanLines_ex1]
  · simp [goWrite, scanLines_ex2]

/-- C6: the claim says every newly constructed logger has mode `"line"`.
`New` does default the mode to `LineMode`, but the composite literal in
`NewMutable` omits the `mode` field, so a `MutableLogger` — including the
global standard and error singletons — starts with the Go zero value `""`
and its cached header encodes `_klio_mode ""`.  This theorem evaluates the
code at the failing input. -/
theorem claim6_newMutable_mode_zero :
    goMode (goNew 0) = "line".data ∧
    goMode (goNewMutable 0) = [] ∧
    goMode (goNewMutable 0) ≠ "line".data ∧
    goMode standardLoggerInit ≠ "line".data ∧
    goMode errorLoggerInit ≠ "line".data ∧
    (goNewMutable 0).linePrefix = encodeHeader "info".data (some []) [] := by
  refine ⟨rfl, rfl, by decide, by decide, by decide, rfl⟩

/-- C7: a logger with empty tags — a nil slice from a zero-argument
`WithTags` call included — gets the two-character token `[]` in its
header's tags field, never `null`. -/
theorem claim7_empty_tags_bracket (l : GoLogger) (level mode : Str) :
    guardedTagsJson (some []) = "[]".data ∧
    guardedTagsJson none = "[]".data ∧
    (∀ t : Option (List Str), guardedTagsJson t ≠ "null".data) ∧
    (withTags l none).linePrefix
      = headerPre l.level ++ ("[]".data ++ headerPost l.mode) ∧
    encodeHeader level (some []) mode
      = headerPre level ++ ("[]".data ++ headerPost mode) ∧
    encodeHeader level none mode
      = headerPre level ++ ("[]".data ++ headerPost mode) := by
  refine ⟨by decide, by decide, ?_, ?_, ?_, ?_⟩
  · intro t
    cases t with
    | none => decide
    | some ts =>
      rw [guardedTagsJson_some]
      exact bracket_ne_null (encArrAux ts ++ [']'])
  · exact encodeHeader_none l.level l.mode
  · exact encodeHeader_some level [] mode
  · exact encodeHeader_none level mode

/-- C8: the header encodes tags in exactly the order given, with no
sorting or deduplication: different tag sequences (in particular unequal
permutations such as `["b","a"]` vs `["a","b"]`) always yield different
headers, and the encoded tags field is the order-preserving
comma-intercalated list of the quoted tags. -/
theorem claim8_tag_order_preserved (level mode : Str) (ts1 ts2 ts : List Str)
    (hne : ts1 ≠ ts2) :
    encodeHeader level (some ts1) mode ≠ encodeHeader level (some ts2) mode ∧
    encArrAux ts = List.intercalate [','] (ts.map jsonMarshalString) ∧
    encodeHeader level (some ts) mode
      = headerPre level ++ (('[' :: encArrAux ts ++ [']']) ++ headerPost mode) :=
  ⟨fun hh => hne (encodeHeader_tags_inj hh), encArrAux_intercalate ts,
    encodeHeader_some level ts mode⟩

theorem claim8_witness :
    (["b".data, "a".data] ≠ ["a".data, "b".data]) ∧
    encodeHeader "warn".data (some ["b".data, "a".data]) "line".data
      ≠ encodeHeader "warn".data (some ["a".data, "b".data]) "line".data :=
  ⟨by decide,
    (claim8_tag_order_preserved "warn".data "line".data
      ["b".data, "a".data] ["a".data, "b".data] [] (by decide)).1⟩

/-- C9: each level-named free function derives a transient logger from the
global standard logger and emits one line whose header carries that
function's level with the standard logger's current tags and mode, written
to the standard logger's current sink; the standard logger's cell is
unchanged afterwards, and each `-f` variant behaves as the plain variant
on the formatted string. -/
theorem claim9_free_level_functions (h : Heap) (a : Nat) (std : GoLogger)
    (c : Str) (hd : deref h a = some std) :
    (∀ lvl, heapFree lvl h a c
        = some ((alloc h (withLevel std lvl)).2, std.output,
            encodeHeader lvl std.tags std.mode ++ c ++ resetSuffix)
      ∧ deref (alloc h (withLevel std lvl)).2 a = some std
      ∧ heapFreeF lvl h a c = heapFree lvl h a c) ∧
    goSpam h a c = heapFree "spam".data h a c ∧
    goDebug h a c = heapFree "debug".data h a c ∧
    goVerbose h a c = heapFree "verbose".data h a c ∧
    goInfo h a c = heapFree "info".data h a c ∧
    goWarn h a c = heapFree "warn".data h a c ∧
    goError h a c = heapFree "error".data h a c ∧
    goFatal h a c = heapFree "fatal".data h a c :=
  ⟨fun lvl => heapFree_spec lvl h a std c hd,
    rfl, rfl, rfl, rfl, rfl, rfl, rfl⟩

theorem claim9_witness :
    deref ⟨[goNewMutable 0]⟩ 0 = some (goNewMutable 0) ∧
    (heapFree "spam".data ⟨[goNewMutable 0]⟩ 0 "oops".data
        = some ((alloc ⟨[goNewMutable 0]⟩
              (withLevel (goNewMutable 0) "spam".data)).2,
            (goNewMutable 0).output,
            encodeHeader "spam".data (goNewMutable 0).tags
                (goNewMutable 0).mode
              ++ "oops".data ++ resetSuffix)
      ∧ deref (alloc ⟨[goNewMutable 0]⟩
            (withLevel (goNewMutable 0) "spam".data)).2 0
          = some (goNewMutable 0)
      ∧ heapFreeF "spam".data ⟨[goNewMutable 0]⟩ 0 "oops".data
          = heapFree "spam".data ⟨[goNewMutable 0]⟩ 0 "oops".data) :=
  ⟨by decide,
    (claim9_free_level_functions ⟨[goNewMutable 0]⟩ 0 (goNewMutable 0)
      "oops".data (by decide)).1 "spam".data⟩

/-- C10: neither `WithLevel`/`SetLevel` nor `WithMode`/`SetMode` validates
its argument: any string is stored and its JSON-quoted form is
interpolated verbatim into the header — `WithLevel("bogus")` yields a
header carrying `"bogus"`, not the default level. -/
theorem claim10_no_level_validation (l : GoLogger) (v : Str) :
    goLevel (withLevel l v) = v ∧
    (withLevel l v).linePrefix
      = headerPre v ++ (guardedTagsJson l.tags ++ headerPost l.mode) ∧
    goMode (withMode l v) = v ∧
    (withMode l v).linePrefix
      = headerPre l.level ++ (guardedTagsJson l.tags ++ headerPost v) ∧
    setLevel l v = withLevel l v ∧
    setMode l v = withMode l v ∧
    jsonMarshalString "bogus".data = "\"bogus\"".data ∧
    (withLevel l "bogus".data).linePrefix
      = headerPre "bogus".data ++ (guardedTagsJson l.tags ++ headerPost l.mode) := by
  refine ⟨rfl, ?_, rfl, ?_, rfl, rfl, by decide, ?_⟩
  · exact encodeHeader_decomp v l.tags l.mode
  · exact encodeHeader_decomp l.level l.tags v
  · exact encodeHeader_decomp "bogus".data l.tags l.mode
